import Mathlib

/-!
Verification of the CalendarGPT instruction-resolution engine
(`backend/app.py`) against its natural-language specification.

The Python source is shallowly embedded: strings are lists of characters
(`Str`), dictionaries become structures or association lists, and fallible
operations return `Option`.  Each definition is a direct translation of the
source function whose name it keeps; presentational string building
(`formatted_response` text) is not modelled, only the data and control flow
that the claims speak about.
-/

/-- Python strings, modelled as lists of characters. -/
abbrev Str := List Char

/-- Conversion helper for writing concrete `Str` literals. -/
def lit (s : String) : Str := s.data

/-- Model of Python `str.lower` restricted to ASCII letters (the only
characters the repository's data uses). -/
def pyLower (s : Str) : Str := s.map Char.toLower

/-- Boolean test that `pat` is a prefix of `s` (used to model Python's
substring operator). -/
def strStartsWith : Str → Str → Bool
  | [], _ => true
  | _ :: _, [] => false
  | p :: ps, c :: cs => p == c && strStartsWith ps cs

/-- Model of Python's substring containment `pat in s`. -/
def strIn : Str → Str → Bool
  | pat, [] => strStartsWith pat []
  | pat, s@(_ :: t) => strStartsWith pat s || strIn pat t

/-! ## Conversation store (`conversation_history`, app.py lines 62-83)

The global dict `conversation_history` maps a user id to a list of message
entries.  It is modelled as an association list; `datetime.now().isoformat()`
is an environment input and becomes an explicit `timestamp` argument. -/

/-- Entry appended by `add_to_conversation_history`:
`{'message': ..., 'is_user': ..., 'timestamp': ...}`. -/
structure ConvEntry where
  message : Str
  is_user : Bool
  timestamp : Str
deriving DecidableEq

/-- The global `conversation_history` dict. -/
abbrev ConvStore := List (Str × List ConvEntry)

/-- Dict lookup `conversation_history[user_id]` / membership test. -/
def storeLookup : ConvStore → Str → Option (List ConvEntry)
  | [], _ => none
  | (k, v) :: rest, uid => if k = uid then some v else storeLookup rest uid

/-- Dict update `conversation_history[user_id] = l` (key known present). -/
def storeSet : ConvStore → Str → List ConvEntry → ConvStore
  | [], uid, l => [(uid, l)]
  | (k, v) :: rest, uid, l =>
      if k = uid then (uid, l) :: rest else (k, v) :: storeSet rest uid l

/-- Translation of `add_to_conversation_history(user_id, message, is_user)`
(app.py lines 70-83): create the user's list if missing, append the new
entry, then truncate to the last 20 entries when the length exceeds 20. -/
def add_to_conversation_history (st : ConvStore) (user_id : Str) (message : Str)
    (is_user : Bool) (timestamp : Str) : ConvStore :=
  let prev := match storeLookup st user_id with
    | none => []
    | some l => l
  let appended := prev ++ [⟨message, is_user, timestamp⟩]
  let trimmed := if appended.length > 20 then appended.drop (appended.length - 20) else appended
  storeSet st user_id trimmed

/-- Python slice `l[-k:]`: the last `k` entries for `k ≥ 1`, but the whole
list when `k = 0` (since `l[-0:]` is `l[0:]`). -/
def pySliceLast (l : List ConvEntry) (k : Nat) : List ConvEntry :=
  if k = 0 then l else l.drop (l.length - k)

/-- Translation of `get_conversation_history(user_id, max_messages=10)`
(app.py lines 64-68): an unknown user id yields `[]`, otherwise the slice
`conversation_history[user_id][-max_messages:]`. -/
def get_conversation_history (st : ConvStore) (user_id : Str)
    (max_messages : Nat := 10) : List ConvEntry :=
  match storeLookup st user_id with
  | none => []
  | some l => pySliceLast l max_messages

/-- One recorded append operation: user id, message, user flag, timestamp. -/
structure AddOp where
  user_id : Str
  message : Str
  is_user : Bool
  timestamp : Str

/-- Run a sequence of appends against a store. -/
def runAdds (st : ConvStore) : List AddOp → ConvStore
  | [] => st
  | op :: rest =>
      runAdds (add_to_conversation_history st op.user_id op.message op.is_user op.timestamp) rest

/-- The entry an `AddOp` inserts. -/
def AddOp.entry (op : AddOp) : ConvEntry := ⟨op.message, op.is_user, op.timestamp⟩

/-- All entries a sequence of operations appends for a given user, in order. -/
def entriesFor (uid : Str) : List AddOp → List ConvEntry
  | [] => []
  | op :: rest =>
      if op.user_id = uid then op.entry :: entriesFor uid rest else entriesFor uid rest

/-- Stored history of a user (empty when the user id is unknown). -/
def storedHistory (st : ConvStore) (uid : Str) : List ConvEntry :=
  match storeLookup st uid with
  | none => []
  | some l => l

/-! ### Store lemmas -/

theorem storeLookup_storeSet_self (st : ConvStore) (uid : Str) (l : List ConvEntry) :
    storeLookup (storeSet st uid l) uid = some l := by
  induction st with
  | nil => simp [storeSet, storeLookup]
  | cons kv rest ih =>
      obtain ⟨k, v⟩ := kv
      by_cases h : k = uid
      · simp [storeSet, storeLookup, h]
      · simp [storeSet, storeLookup, h, ih]

theorem storeLookup_storeSet_other (st : ConvStore) (uid uid' : Str) (l : List ConvEntry)
    (h : uid ≠ uid') : storeLookup (storeSet st uid l) uid' = storeLookup st uid' := by
  induction st with
  | nil => simp [storeSet, storeLookup, h]
  | cons kv rest ih =>
      obtain ⟨k, v⟩ := kv
      by_cases hk : k = uid
      · subst hk
        simp [storeSet, storeLookup, h, ih]
      · simp [storeSet, storeLookup, hk, ih]

/-- The conditional trim in `add_to_conversation_history` always equals
keeping the last 20 entries. -/
theorem trim_eq_drop (l : List ConvEntry) :
    (if l.length > 20 then l.drop (l.length - 20) else l) = l.drop (l.length - 20) := by
  by_cases h : l.length > 20
  · simp [h]
  · have : l.length - 20 = 0 := by omega
    simp [h, this]

/-- Keeping the last 20 of an already-trimmed list and then appending is the
same as appending first and trimming once. -/
theorem drop20_append_single (base : List ConvEntry) (e : ConvEntry) :
    let t := base.drop (base.length - 20)
    (t ++ [e]).drop ((t ++ [e]).length - 20) =
      (base ++ [e]).drop ((base ++ [e]).length - 20) := by
  intro t
  by_cases h : base.length ≤ 20
  · have : base.length - 20 = 0 := by omega
    simp only [t, this, List.drop_zero]
  · have hlt : t.length = 20 := by
      simp only [t, List.length_drop]; omega
    have h1 : (t ++ [e]).length - 20 = 1 := by simp [hlt]
    have h2 : (base ++ [e]).length - 20 = (base.length - 20) + 1 := by
      simp [List.length_append]; omega
    rw [h1, h2]
    rw [List.drop_append_eq_append_drop, List.drop_append_eq_append_drop]
    have h3 : (1 : Nat) - t.length = 0 := by omega
    have h4 : base.length - 20 + 1 - base.length = 0 := by omega
    rw [h3, h4]
    simp only [t, List.drop_drop, List.drop_zero]

/-- Core characterization: running appends on a store whose entry for `uid`
is the last-20 truncation of `base` produces the last-20 truncation of
`base ++ entriesFor uid ops`. -/
theorem runAdds_characterization (ops : List AddOp) (st : ConvStore) (uid : Str)
    (base : List ConvEntry)
    (hbase : storedHistory st uid = base.drop (base.length - 20)) :
    storedHistory (runAdds st ops) uid =
      (base ++ entriesFor uid ops).drop ((base ++ entriesFor uid ops).length - 20) := by
  induction ops generalizing st base with
  | nil => simpa [runAdds, entriesFor] using hbase
  | cons op rest ih =>
      simp only [runAdds]
      by_cases huid : op.user_id = uid
      · have hstep : storedHistory
            (add_to_conversation_history st op.user_id op.message op.is_user op.timestamp) uid =
            (base ++ [op.entry]).drop ((base ++ [op.entry]).length - 20) := by
          unfold add_to_conversation_history storedHistory
          rw [huid, storeLookup_storeSet_self]
          simp only
          rw [show (match storeLookup st uid with | none => [] | some l => l) = storedHistory st uid from rfl]
          rw [hbase, trim_eq_drop]
          exact drop20_append_single base op.entry
        have := ih _ (base ++ [op.entry]) hstep
        rw [this]
        simp [entriesFor, huid]
      · have hstep : storedHistory
            (add_to_conversation_history st op.user_id op.message op.is_user op.timestamp) uid =
            base.drop (base.length - 20) := by
          unfold add_to_conversation_history storedHistory
          rw [storeLookup_storeSet_other _ _ _ _ huid]
          exact hbase
        have := ih _ base hstep
        rw [this]
        simp [entriesFor, huid]

/-- C5: the stored conversation history after any sequence of appends is
exactly the last-20 suffix of all entries appended for that user. -/
theorem storedHistory_after_runAdds (ops : List AddOp) (uid : Str) :
    storedHistory (runAdds [] ops) uid =
      (entriesFor uid ops).drop ((entriesFor uid ops).length - 20) := by
  have := runAdds_characterization ops [] uid []
    (by simp [storedHistory, storeLookup])
  simpa using this

/-- C5: after any sequence of appends starting from the empty store, every
user's stored conversation history has length at most 20, is exactly the
last-20 suffix of all entries appended for that user (oldest evicted
first), and consists of the appended entries unchanged (a suffix of the
append sequence, so no stored entry is ever mutated). -/
theorem conversation_history_invariant (ops : List AddOp) (uid : Str) :
    (storedHistory (runAdds [] ops) uid).length ≤ 20 ∧
    storedHistory (runAdds [] ops) uid =
      (entriesFor uid ops).drop ((entriesFor uid ops).length - 20) ∧
    (storedHistory (runAdds [] ops) uid).IsSuffix (entriesFor uid ops) := by
  have h := storedHistory_after_runAdds ops uid
  refine ⟨?_, h, ?_⟩
  · rw [h, List.length_drop]; omega
  · rw [h]; exact List.drop_suffix _ _

/-- C6 counterexample: with 20 stored entries, a read that supplies no count
returns 10 entries, not the `min(8, 20) = 8` the claim's default of 8 would
require (the source default is `max_messages=10`). -/
theorem get_history_default_not_eight :
    (get_conversation_history
      [(lit "u", List.replicate 20 (⟨lit "m", true, lit "t"⟩ : ConvEntry))]
      (lit "u")).length = 10 ∧
    (get_conversation_history
      [(lit "u", List.replicate 20 (⟨lit "m", true, lit "t"⟩ : ConvEntry))]
      (lit "u")).length ≠ 8 := by
  constructor <;> decide

/-- C6 amended: the read defaults to `max_messages = 10`; for every `k ≥ 1` it
returns the last `min(k, length)` stored entries in their original order
(the last-`k` suffix); `k = 0` returns the entire stored history (Python
`l[-0:]` is `l[0:]`); and an unknown user id yields the empty sequence. -/
theorem get_history_characterization (st : ConvStore) (uid : Str) (k : Nat) :
    (get_conversation_history st uid = get_conversation_history st uid 10) ∧
    (1 ≤ k → get_conversation_history st uid k =
      (storedHistory st uid).drop ((storedHistory st uid).length - k)) ∧
    (get_conversation_history st uid 0 = storedHistory st uid) ∧
    (storeLookup st uid = none → get_conversation_history st uid k = []) := by
  refine ⟨rfl, ?_, ?_, ?_⟩
  · intro hk
    unfold get_conversation_history storedHistory
    cases h : storeLookup st uid with
    | none => simp
    | some l =>
        have : k ≠ 0 := by omega
        simp [pySliceLast, this]
  · unfold get_conversation_history storedHistory
    cases h : storeLookup st uid with
    | none => simp
    | some l => simp [pySliceLast]
  · intro h
    unfold get_conversation_history
    rw [h]

/-- Witness for the amended C6 theorem at a concrete store and count. -/
theorem get_history_characterization_witness :
    get_conversation_history
      [(lit "u", [(⟨lit "a", true, lit "t1"⟩ : ConvEntry), ⟨lit "b", false, lit "t2"⟩])]
      (lit "u") 1 =
    (storedHistory
      [(lit "u", [(⟨lit "a", true, lit "t1"⟩ : ConvEntry), ⟨lit "b", false, lit "t2"⟩])]
      (lit "u")).drop
      ((storedHistory
        [(lit "u", [(⟨lit "a", true, lit "t1"⟩ : ConvEntry), ⟨lit "b", false, lit "t2"⟩])]
        (lit "u")).length - 1) :=
  (get_history_characterization _ _ 1).2.1 (by decide)

/-! ## Action dispatcher (`process_ai_instruction`, app.py lines 964-1007)

The dispatch layer reads `instruction.get('action')` and
`instruction.get('item_type')` and routes to a handler.  A handler
invocation (which is what may reach the scheduling provider) is modelled as
`DispatchR.call`; a directly returned dict as `DispatchR.env`; and the
implicit Python `None` that results when a recognized action meets an
unrecognized `item_type` (the inner `if/elif` has no `else`, so control
falls off the end of the function) as `DispatchR.pyNone`. -/

/-- Uniform response-envelope dict shape: each field models an optional key
of the returned Python dict. -/
structure ResultEnv where
  success : Option Bool
  message : Option Str
  error : Option Str
  clarification : Option Bool
deriving DecidableEq

/-- Envelope returned for `action == 'greeting'`. -/
def greetingEnv : ResultEnv :=
  { success := some true, message := some (lit "Greeting processed"),
    error := none, clarification := none }

/-- Envelope returned for `action == 'clarification_needed'`:
`{"success": True, "message": "Clarification needed", "clarification": True}`.
Note the dict has no key for the instruction's `missing_fields`. -/
def clarificationEnv : ResultEnv :=
  { success := some true, message := some (lit "Clarification needed"),
    error := none, clarification := some true }

/-- Python `f"{x}"` rendering of the optional action string. -/
def pyStrOfOpt : Option Str → Str
  | none => lit "None"
  | some s => s

/-- Envelope returned by the final `else` branch:
`{"error": f"Unknown action: {action}"}`. -/
def unknownActionEnv (a : Option Str) : ResultEnv :=
  { success := none, message := none,
    error := some (lit "Unknown action: " ++ pyStrOfOpt a), clarification := none }

/-- The ten concrete handler functions the dispatcher can route to. -/
inductive Handler where
  | createEvent | createTask | updateEvent | updateTask
  | deleteEvent | deleteTask | findAndDeleteEvent | findAndDeleteTask
  | queryEvents | queryTasks
deriving DecidableEq

/-- Result of the dispatch layer: a returned envelope, a handler
invocation, or Python's implicit `None` return. -/
inductive DispatchR where
  | env (e : ResultEnv)
  | call (h : Handler)
  | pyNone
deriving DecidableEq

/-- Whether a dispatch result is a returned envelope. -/
def DispatchR.isEnvelope : DispatchR → Bool
  | .env _ => true
  | _ => false

/-- Instruction fields the dispatch layer reads, plus `missing_fields`. -/
structure InstrDispatch where
  action : Option Str
  item_type : Option Str
  missing_fields : Option (List Str)
deriving DecidableEq

/-- Translation of the `if action == ...` routing chain of
`process_ai_instruction` (app.py lines 964-1007). -/
def process_ai_instruction_dispatch (i : InstrDispatch) : DispatchR :=
  let action := i.action
  let item_type := i.item_type
  if action = some (lit "greeting") then .env greetingEnv
  else if action = some (lit "create") then
    (if item_type = some (lit "event") then .call .createEvent
     else if item_type = some (lit "task") then .call .createTask
     else .pyNone)
  else if action = some (lit "update") then
    (if item_type = some (lit "event") then .call .updateEvent
     else if item_type = some (lit "task") then .call .updateTask
     else .pyNone)
  else if action = some (lit "delete") then
    (if item_type = some (lit "event") then .call .deleteEvent
     else if item_type = some (lit "task") then .call .deleteTask
     else .pyNone)
  else if action = some (lit "find_and_delete") then
    (if item_type = some (lit "event") then .call .findAndDeleteEvent
     else if item_type = some (lit "task") then .call .findAndDeleteTask
     else .pyNone)
  else if action = some (lit "query") then
    (if item_type = some (lit "event") then .call .queryEvents
     else if item_type = some (lit "task") then .call .queryTasks
     else .pyNone)
  else if action = some (lit "clarification_needed") then .env clarificationEnv
  else .env (unknownActionEnv action)

/-- Action strings routed through item-type sub-dispatch. -/
def opActions : List Str :=
  [lit "create", lit "update", lit "delete", lit "find_and_delete", lit "query"]

/-- All action strings the dispatcher recognizes. -/
def knownActions : List Str :=
  lit "greeting" :: lit "clarification_needed" :: opActions

/-- C4 counterexample: the pair `(action = "create", item_type = None)` is
outside the routing table, yet the dispatcher returns Python `None`
(control falls off the inner `if/elif` with no `else`), not a
ResultEnvelope reporting an unknown action. -/
theorem dispatch_create_unknown_item_type_returns_none :
    process_ai_instruction_dispatch
      ⟨some (lit "create"), none, none⟩ = .pyNone ∧
    (process_ai_instruction_dispatch
      ⟨some (lit "create"), none, none⟩).isEnvelope = false := by
  constructor <;> rfl

/-- C4 amended: an action string outside the seven recognized ones (including
a missing action) yields the `{"error": "Unknown action: <value>"}` envelope;
a recognized operational action whose item type is neither `'event'` nor
`'task'` yields Python `None` with no envelope; and a handler (the only
path that can reach the scheduling provider) is invoked only for pairs
inside the routing table. -/
theorem dispatch_routing (i : InstrDispatch) :
    (i.action ∉ knownActions.map some →
      process_ai_instruction_dispatch i = .env (unknownActionEnv i.action)) ∧
    (i.action ∈ opActions.map some →
      i.item_type ≠ some (lit "event") → i.item_type ≠ some (lit "task") →
      process_ai_instruction_dispatch i = .pyNone) ∧
    (∀ h, process_ai_instruction_dispatch i = .call h →
      i.action ∈ opActions.map some ∧
      (i.item_type = some (lit "event") ∨ i.item_type = some (lit "task"))) := by
  refine ⟨?_, ?_, ?_⟩
  · intro hk
    simp only [knownActions, opActions, List.map_cons, List.map_nil, List.mem_cons,
      List.mem_singleton, not_or] at hk
    obtain ⟨h1, h2, h3, h4, h5, h6, h7, -⟩ := hk
    simp [process_ai_instruction_dispatch, h1, h2, h3, h4, h5, h6, h7]
  · intro hop hev htask
    simp only [opActions, List.map_cons, List.map_nil, List.mem_cons,
      List.mem_singleton] at hop
    rcases hop with h | h | h | h | h | h
    · simp only [process_ai_instruction_dispatch]
      rw [h, if_neg (by decide), if_pos rfl, if_neg hev, if_neg htask]
    · simp only [process_ai_instruction_dispatch]
      rw [h, if_neg (by decide), if_neg (by decide), if_pos rfl, if_neg hev, if_neg htask]
    · simp only [process_ai_instruction_dispatch]
      rw [h, if_neg (by decide), if_neg (by decide), if_neg (by decide), if_pos rfl,
        if_neg hev, if_neg htask]
    · simp only [process_ai_instruction_dispatch]
      rw [h, if_neg (by decide), if_neg (by decide), if_neg (by decide), if_neg (by decide),
        if_pos rfl, if_neg hev, if_neg htask]
    · simp only [process_ai_instruction_dispatch]
      rw [h, if_neg (by decide), if_neg (by decide), if_neg (by decide), if_neg (by decide),
        if_neg (by decide), if_pos rfl, if_neg hev, if_neg htask]
    · simp at h
  · intro h hcall
    simp only [process_ai_instruction_dispatch] at hcall
    simp only [opActions, List.map_cons, List.map_nil, List.mem_cons, List.mem_singleton]
    split_ifs at hcall
    all_goals exact ⟨by tauto, by tauto⟩

/-- Witness for the amended dispatch-routing theorem: the unrecognized
action `"banana"` yields the unknown-action error envelope. -/
theorem dispatch_routing_witness :
    process_ai_instruction_dispatch ⟨some (lit "banana"), some (lit "event"), none⟩ =
      .env (unknownActionEnv (some (lit "banana"))) :=
  (dispatch_routing ⟨some (lit "banana"), some (lit "event"), none⟩).1 (by decide)

/-- C9 counterexample: two clarification instructions whose `missingFields`
differ produce byte-identical dispatch results, so the returned envelope
cannot carry the instruction's `missingFields` through to the caller. -/
theorem clarification_env_ignores_missing_fields :
    process_ai_instruction_dispatch
        ⟨some (lit "clarification_needed"), none, some [lit "date"]⟩ =
      process_ai_instruction_dispatch
        ⟨some (lit "clarification_needed"), none, some [lit "time"]⟩ ∧
    (some [lit "date"] : Option (List Str)) ≠ some [lit "time"] := by
  exact ⟨rfl, by decide⟩

/-- C9 amended: every instruction whose action is `clarification_needed`
makes the dispatcher return the fixed envelope
`{"success": True, "message": "Clarification needed", "clarification": True}`
— the `clarification` flag signals that the conversation should pause for
user input — but the envelope does not include the instruction's
`missingFields`. -/
theorem clarification_dispatch (i : InstrDispatch)
    (h : i.action = some (lit "clarification_needed")) :
    process_ai_instruction_dispatch i = .env clarificationEnv ∧
    clarificationEnv.clarification = some true ∧
    clarificationEnv.success = some true := by
  refine ⟨?_, rfl, rfl⟩
  simp only [process_ai_instruction_dispatch]
  rw [h, if_neg (by decide), if_neg (by decide), if_neg (by decide), if_neg (by decide),
    if_neg (by decide), if_neg (by decide), if_pos rfl]

/-- Witness for the clarification dispatch theorem at a concrete
instruction. -/
theorem clarification_dispatch_witness :
    process_ai_instruction_dispatch
        ⟨some (lit "clarification_needed"), none, some [lit "date"]⟩ =
      .env clarificationEnv :=
  (clarification_dispatch ⟨some (lit "clarification_needed"), none, some [lit "date"]⟩ rfl).1

/-! ## Python datetime fragment (`datetime.fromisoformat`, subtraction,
`strftime('%H:%M')`)

The resolvers parse ISO-8601 strings with `datetime.fromisoformat` after
`.replace('Z', '+00:00')`.  The supported fragment is
`YYYY-MM-DD[<sep>HH:MM[:SS][±HH:MM]]` (any single separator character, as
in Python ≤ 3.10), with field range validation.  Subtraction of an aware
and a naive datetime raises `TypeError` in Python, modelled by `none`. -/

/-- Numeric value of a decimal digit character. -/
def digitVal (c : Char) : Nat := c.toNat - '0'.toNat

/-- Parse exactly `n` decimal digits, returning their value and the rest. -/
def parseNDigits : Nat → Str → Nat → Option (Nat × Str)
  | 0, s, acc => some (acc, s)
  | _ + 1, [], _ => none
  | n + 1, c :: rest, acc =>
      if c.isDigit then parseNDigits n rest (acc * 10 + digitVal c) else none

/-- Gregorian leap-year test. -/
def isLeapYear (y : Nat) : Bool := y % 4 = 0 && (y % 100 ≠ 0 || y % 400 = 0)

/-- Number of days in a month. -/
def daysInMonth (y m : Nat) : Nat :=
  if m = 2 then (if isLeapYear y then 29 else 28)
  else if m = 4 ∨ m = 6 ∨ m = 9 ∨ m = 11 then 30
  else 31

/-- Days since 1970-01-01 of a civil date (standard civil-calendar
conversion; all intermediate quantities are nonnegative for years ≥ 1). -/
def daysFromCivil (y m d : Nat) : Int :=
  let y' : Int := if m ≤ 2 then (y : Int) - 1 else (y : Int)
  let era : Int := y' / 400
  let yoe : Int := y' - era * 400
  let mp : Int := ((m : Int) + 9) % 12
  let doy : Int := (153 * mp + 2) / 5 + (d : Int) - 1
  let doe : Int := yoe * 365 + yoe / 4 - yoe / 100 + doy
  era * 146097 + doe - 719468

/-- Parsed `datetime` value: civil fields plus an optional UTC offset in
seconds (`None` for a naive datetime). -/
structure PyDateTime where
  year : Nat
  month : Nat
  day : Nat
  hour : Nat
  minute : Nat
  second : Nat
  offset : Option Int
deriving DecidableEq

/-- Wall-clock seconds since the epoch, ignoring the offset. -/
def PyDateTime.naiveSeconds (dt : PyDateTime) : Int :=
  daysFromCivil dt.year dt.month dt.day * 86400 +
    (dt.hour : Int) * 3600 + (dt.minute : Int) * 60 + (dt.second : Int)

/-- Parse the optional `±HH:MM` offset suffix (must end the string). -/
def parseOffset : Str → Option (Option Int)
  | [] => some none
  | c :: rest =>
      if c = '+' ∨ c = '-' then
        match parseNDigits 2 rest 0 with
        | some (oh, ':' :: rest2) =>
            (match parseNDigits 2 rest2 0 with
             | some (om, []) =>
                 if oh ≤ 23 ∧ om ≤ 59 then
                   let secs : Int := (oh : Int) * 3600 + (om : Int) * 60
                   some (some (if c = '-' then -secs else secs))
                 else none
             | _ => none)
        | _ => none
      else none

/-- Model of `datetime.fromisoformat` on the supported fragment. -/
def pyFromIso (s : Str) : Option PyDateTime := do
  let (y, r1) ← parseNDigits 4 s 0
  match r1 with
  | '-' :: r2 =>
    let (m, r3) ← parseNDigits 2 r2 0
    match r3 with
    | '-' :: r4 =>
      let (d, r5) ← parseNDigits 2 r4 0
      if 1 ≤ m ∧ m ≤ 12 ∧ 1 ≤ d ∧ d ≤ daysInMonth y m then
        match r5 with
        | [] => some ⟨y, m, d, 0, 0, 0, none⟩
        | _ :: r6 =>
          let (hh, r7) ← parseNDigits 2 r6 0
          match r7 with
          | ':' :: r8 =>
            let (mi, r9) ← parseNDigits 2 r8 0
            if hh ≤ 23 ∧ mi ≤ 59 then
              match r9 with
              | ':' :: r10 =>
                let (ss, r11) ← parseNDigits 2 r10 0
                if ss ≤ 59 then
                  (parseOffset r11).map (fun off => ⟨y, m, d, hh, mi, ss, off⟩)
                else none
              | r9' =>
                (parseOffset r9').map (fun off => ⟨y, m, d, hh, mi, 0, off⟩)
            else none
          | _ => none
      else none
    | _ => none
  | _ => none

/-- Model of `str.replace('Z', '+00:00')`. -/
def replaceZ : Str → Str
  | [] => []
  | c :: rest =>
      if c = 'Z' then lit "+00:00" ++ replaceZ rest else c :: replaceZ rest

/-- Model of `(a - b).total_seconds()` on two datetimes: defined when both
are naive or both aware, a `TypeError` (`none`) otherwise. -/
def dtSub (a b : PyDateTime) : Option Int :=
  match a.offset, b.offset with
  | none, none => some (a.naiveSeconds - b.naiveSeconds)
  | some oa, some ob => some ((a.naiveSeconds - oa) - (b.naiveSeconds - ob))
  | _, _ => none

/-- Two-digit zero-padded decimal rendering. -/
def twoDigits (n : Nat) : Str :=
  if n < 10 then '0' :: Nat.toDigits 10 n else Nat.toDigits 10 n

/-- Model of `dt.strftime('%H:%M')`. -/
def strftimeHM (dt : PyDateTime) : Str :=
  twoDigits dt.hour ++ ':' :: twoDigits dt.minute

/-! ## Disambiguation resolvers (app.py lines 1361-1455 and 1457-1607)

Inputs are the instruction fields the resolvers read and the
provider-returned candidate lists.  Provider-call effects are captured in
the result constructors (`deletedTask`/`deletedEvent` record the one delete
call); the `formatted_response` display strings are presentational and not
modelled.  Python truthiness of the string fields (`if instruction_date:`)
is modelled by `truthy`. -/

/-- Python truthiness of an optional string (`None` and `''` are falsy). -/
def truthy : Option Str → Bool
  | none => false
  | some s => !s.isEmpty

/-- Instruction fields read by the find-and-delete resolvers. -/
structure FDInstr where
  title : Option Str
  date : Option Str
  datetime_start : Option Str
  time : Option Str
deriving DecidableEq

/-- Provider-returned task: `id`, `title` (may be missing), `due`. -/
structure TaskCand where
  id : Str
  title : Option Str
  due : Option Str
deriving DecidableEq

/-- Provider-returned calendar event: `id`, `summary` (may be missing), and
the `start` dict's `date` (all-day) / `dateTime` (timed) keys. -/
structure EventCand where
  id : Str
  summary : Option Str
  startDate : Option Str
  startDateTime : Option Str
deriving DecidableEq

/-- Search description: `instruction.get('title', '').lower()`. -/
def searchDescription (i : FDInstr) : Str := pyLower (i.title.getD [])

/-- Title-match test of the task resolver (app.py lines 1392-1394):
`search_description in task_title or task_title in search_description`. -/
def taskTitleMatches (i : FDInstr) (t : TaskCand) : Bool :=
  let sd := searchDescription i
  let tt := pyLower (t.title.getD [])
  strIn sd tt || strIn tt sd

/-- Title-match test of the event resolver (app.py lines 1499-1500). -/
def eventTitleMatches (i : FDInstr) (e : EventCand) : Bool :=
  let sd := searchDescription i
  let et := pyLower (e.summary.getD [])
  strIn sd et || strIn et sd

/-- Result of `find_and_delete_task_from_instruction`: one constructor per
return statement (service acquisition assumed successful, and the
exception path is unreachable because the task loop performs no parsing). -/
inductive FDTaskResult where
  | noTasks
  | noMatches (tasks : List TaskCand)
  | deletedTask (id : Str) (title : Str)
  | multipleMatches (tasks : List TaskCand)
deriving DecidableEq

/-- Translation of `find_and_delete_task_from_instruction` (app.py lines
1361-1455) on an already-fetched task list.  Note that the loop at lines
1392-1395 filters only by bidirectional title containment; the
instruction's date/time fields are never consulted. -/
def find_and_delete_task_from_instruction (i : FDInstr) (tasks : List TaskCand) :
    FDTaskResult :=
  if tasks.isEmpty then .noTasks
  else
    let ms := tasks.filter (taskTitleMatches i)
    match ms with
    | [] => .noMatches tasks
    | [t] => .deletedTask t.id (t.title.getD (lit "Untitled Task"))
    | _ :: _ :: _ => .multipleMatches ms

/-- Secondary temporal filter of the event resolver (app.py lines
1503-1537), evaluated for a title-matching candidate.  `none` models an
exception escaping from `datetime.fromisoformat` or from subtracting a
naive and an aware datetime. -/
def eventDateMatches (i : FDInstr) (e : EventCand) : Option Bool :=
  if truthy i.date then
    (if truthy e.startDate then
      some (decide (e.startDate.getD [] = i.date.getD []))
     else if truthy e.startDateTime then
      some (decide ((e.startDateTime.getD []).takeWhile (· != 'T') = i.date.getD []))
     else some true)
  else if truthy i.datetime_start then
    (if truthy e.startDateTime then
      match pyFromIso (replaceZ (e.startDateTime.getD [])),
            pyFromIso (replaceZ (i.datetime_start.getD [])) with
      | some a, some b => (dtSub a b).map (fun diff => decide (diff.natAbs ≤ 3600))
      | _, _ => none
     else some true)
  else if truthy i.time then
    (if truthy e.startDateTime then
      (pyFromIso (replaceZ (e.startDateTime.getD []))).map
        (fun a => decide (strftimeHM a = i.time.getD []))
     else some true)
  else some true

/-- The event-matching loop (app.py lines 1497-1538): candidates are kept
when the title matches and the temporal filter passes; an exception while
evaluating the filter aborts the whole resolver (`none`). -/
def collectEventMatches (i : FDInstr) : List EventCand → Option (List EventCand)
  | [] => some []
  | e :: rest =>
      if eventTitleMatches i e then
        match eventDateMatches i e with
        | none => none
        | some dm =>
            match collectEventMatches i rest with
            | none => none
            | some ms => some (if dm then e :: ms else ms)
      else collectEventMatches i rest

/-- Result of `find_and_delete_calendar_event_from_instruction`: one
constructor per return statement, plus `errorEnv` for the
exception-handler envelope. -/
inductive FDEventResult where
  | errorEnv
  | noEvents
  | noMatches (events : List EventCand)
  | deletedEvent (id : Str) (title : Str)
  | multipleMatches (events : List EventCand)
deriving DecidableEq

/-- Translation of `find_and_delete_calendar_event_from_instruction`
(app.py lines 1457-1607) on an already-fetched event list. -/
def find_and_delete_calendar_event_from_instruction (i : FDInstr)
    (events : List EventCand) : FDEventResult :=
  if events.isEmpty then .noEvents
  else
    match collectEventMatches i events with
    | none => .errorEnv
    | some ms =>
      match ms with
      | [] => .noMatches events
      | [e] => .deletedEvent e.id (e.summary.getD (lit "Untitled Event"))
      | _ :: _ :: _ => .multipleMatches ms

/-- Ids passed to the provider's task-delete call. -/
def FDTaskResult.deletes : FDTaskResult → List Str
  | .deletedTask i _ => [i]
  | _ => []

/-- Candidates listed in the task envelope (`"tasks"` key; absent = `[]`). -/
def FDTaskResult.listed : FDTaskResult → List TaskCand
  | .noMatches l => l
  | .multipleMatches l => l
  | _ => []

/-- Whether the task envelope has `"success": True`. -/
def FDTaskResult.isSuccess : FDTaskResult → Bool
  | _ => true

/-- Ids passed to the provider's event-delete call. -/
def FDEventResult.deletes : FDEventResult → List Str
  | .deletedEvent i _ => [i]
  | _ => []

/-- Candidates listed in the event envelope (`"events"` key; absent = `[]`). -/
def FDEventResult.listed : FDEventResult → List EventCand
  | .noMatches l => l
  | .multipleMatches l => l
  | _ => []

/-- Whether the event envelope has `"success": True`. -/
def FDEventResult.isSuccess : FDEventResult → Bool
  | .errorEnv => false
  | _ => true

/-! ### Substring and resolver lemmas -/

theorem strStartsWith_iff (p s : Str) : strStartsWith p s = true ↔ p <+: s := by
  induction p generalizing s with
  | nil => simp [strStartsWith]
  | cons c cs ih =>
      cases s with
      | nil => simp [strStartsWith]
      | cons d ds =>
          simp only [strStartsWith, Bool.and_eq_true, beq_iff_eq, ih, List.cons_prefix_cons]

/-- Python substring containment agrees with list-infix containment. -/
theorem strIn_iff (p s : Str) : strIn p s = true ↔ p <:+: s := by
  induction s with
  | nil =>
      simp only [strIn, strStartsWith_iff, List.infix_nil, List.prefix_nil]
  | cons c t ih =>
      simp only [strIn, Bool.or_eq_true, strStartsWith_iff, ih, List.infix_cons_iff]

/-- The empty pattern is contained in every string. -/
theorem strIn_nil (s : Str) : strIn [] s = true := by
  cases s <;> simp [strIn, strStartsWith]

/-- Case split of the task resolver over the match count. -/
theorem task_resolver_spec (i : FDInstr) (tasks : List TaskCand) :
    (tasks = [] → find_and_delete_task_from_instruction i tasks = .noTasks) ∧
    (tasks ≠ [] → tasks.filter (taskTitleMatches i) = [] →
      find_and_delete_task_from_instruction i tasks = .noMatches tasks) ∧
    (∀ t, tasks.filter (taskTitleMatches i) = [t] →
      find_and_delete_task_from_instruction i tasks =
        .deletedTask t.id (t.title.getD (lit "Untitled Task"))) ∧
    (2 ≤ (tasks.filter (taskTitleMatches i)).length →
      find_and_delete_task_from_instruction i tasks =
        .multipleMatches (tasks.filter (taskTitleMatches i))) := by
  cases tasks with
  | nil =>
      refine ⟨fun _ => rfl, fun h _ => absurd rfl h, ?_, ?_⟩
      · intro t ht; simp at ht
      · intro h; simp at h
  | cons a as =>
      refine ⟨?_, ?_, ?_, ?_⟩
      · intro h; cases h
      · intro _ hm
        simp only [find_and_delete_task_from_instruction, List.isEmpty_cons, if_false,
          Bool.false_eq_true, hm]
      · intro t hm
        simp only [find_and_delete_task_from_instruction, List.isEmpty_cons, if_false,
          Bool.false_eq_true, hm]
      · intro h2
        rcases hm : (a :: as).filter (taskTitleMatches i) with - | ⟨t, ts⟩
        · rw [hm] at h2; simp at h2
        · rcases ts with - | ⟨t', ts'⟩
          · rw [hm] at h2; simp at h2
          · simp only [find_and_delete_task_from_instruction, List.isEmpty_cons, if_false,
              Bool.false_eq_true, hm]

/-- Case split of the event resolver over the match count, assuming the
matching loop completed without an exception. -/
theorem event_resolver_spec (i : FDInstr) (events : List EventCand) (ms : List EventCand)
    (hms : collectEventMatches i events = some ms) :
    (events = [] → find_and_delete_calendar_event_from_instruction i events = .noEvents) ∧
    (events ≠ [] → ms = [] →
      find_and_delete_calendar_event_from_instruction i events = .noMatches events) ∧
    (∀ e, ms = [e] →
      find_and_delete_calendar_event_from_instruction i events =
        .deletedEvent e.id (e.summary.getD (lit "Untitled Event"))) ∧
    (2 ≤ ms.length →
      find_and_delete_calendar_event_from_instruction i events = .multipleMatches ms) := by
  cases events with
  | nil =>
      have hnil : ms = [] := by
        simp only [collectEventMatches] at hms
        exact (Option.some_injective _ hms).symm
      refine ⟨fun _ => rfl, fun h _ => absurd rfl h, ?_, ?_⟩
      · intro e he; rw [hnil] at he; cases he
      · intro h2; rw [hnil] at h2; simp at h2
  | cons a as =>
      refine ⟨?_, ?_, ?_, ?_⟩
      · intro h; cases h
      · intro _ hm
        subst hm
        simp only [find_and_delete_calendar_event_from_instruction, List.isEmpty_cons,
          if_false, Bool.false_eq_true, hms]
      · intro e hm
        subst hm
        simp only [find_and_delete_calendar_event_from_instruction, List.isEmpty_cons,
          if_false, Bool.false_eq_true, hms]
      · intro h2
        rcases hm : ms with - | ⟨e, es⟩
        · rw [hm] at h2; simp at h2
        · rcases es with - | ⟨e', es'⟩
          · rw [hm] at h2; simp at h2
          · subst hm
            simp only [find_and_delete_calendar_event_from_instruction, List.isEmpty_cons,
              if_false, Bool.false_eq_true, hms]

/-- Every candidate kept by the event-matching loop comes from the browsed
list, matches on title, and passes the temporal filter. -/
theorem mem_collectEventMatches (i : FDInstr) :
    ∀ (events ms : List EventCand), collectEventMatches i events = some ms →
      ∀ e ∈ ms, e ∈ events ∧ eventTitleMatches i e = true ∧ eventDateMatches i e = some true := by
  intro events
  induction events with
  | nil =>
      intro ms hms e he
      simp only [collectEventMatches] at hms
      obtain rfl := (Option.some_injective _ hms).symm
      cases he
  | cons a as ih =>
      intro ms hms e he
      simp only [collectEventMatches] at hms
      by_cases ht : eventTitleMatches i a = true
      · rw [if_pos ht] at hms
        cases hd : eventDateMatches i a with
        | none => rw [hd] at hms; cases hms
        | some dm =>
            rw [hd] at hms
            cases hrest : collectEventMatches i as with
            | none => rw [hrest] at hms; cases hms
            | some ms' =>
                rw [hrest] at hms
                obtain rfl := (Option.some_injective _ hms).symm
                by_cases hdm : dm = true
                · subst hdm
                  rw [if_pos rfl] at he
                  rcases List.mem_cons.mp he with rfl | he'
                  · exact ⟨List.mem_cons_self _ _, ht, hd⟩
                  · obtain ⟨h1, h2, h3⟩ := ih ms' hrest e he'
                    exact ⟨List.mem_cons_of_mem _ h1, h2, h3⟩
                · have hdm' : dm = false := by cases dm <;> simp_all
                  subst hdm'
                  simp only [if_false, Bool.false_eq_true] at he
                  obtain ⟨h1, h2, h3⟩ := ih ms' hrest e he
                  exact ⟨List.mem_cons_of_mem _ h1, h2, h3⟩
      · rw [if_neg ht] at hms
        obtain ⟨h1, h2, h3⟩ := ih ms hms e he
        exact ⟨List.mem_cons_of_mem _ h1, h2, h3⟩

/-- C1: for both resolvers, a provider delete call is made iff exactly one
candidate matches; zero matches yield a success envelope listing all
browsed candidates with no deletion; two or more matches yield a success
envelope listing only the matching subset with no deletion.  The event
side is stated under the hypothesis that the matching loop completed
without a datetime exception (`collectEventMatches ... = some ms`), which
always holds for ISO-8601 date fields as required by the data model. -/
theorem find_and_delete_three_way (i : FDInstr) (tasks : List TaskCand)
    (events ms : List EventCand)
    (hms : collectEventMatches i events = some ms) :
    ((find_and_delete_task_from_instruction i tasks).deletes ≠ [] ↔
      (tasks.filter (taskTitleMatches i)).length = 1) ∧
    (tasks.filter (taskTitleMatches i) = [] →
      (find_and_delete_task_from_instruction i tasks).isSuccess = true ∧
      (find_and_delete_task_from_instruction i tasks).deletes = [] ∧
      (find_and_delete_task_from_instruction i tasks).listed = tasks) ∧
    (2 ≤ (tasks.filter (taskTitleMatches i)).length →
      (find_and_delete_task_from_instruction i tasks).isSuccess = true ∧
      (find_and_delete_task_from_instruction i tasks).deletes = [] ∧
      (find_and_delete_task_from_instruction i tasks).listed =
        tasks.filter (taskTitleMatches i)) ∧
    (∀ t, tasks.filter (taskTitleMatches i) = [t] →
      (find_and_delete_task_from_instruction i tasks).deletes = [t.id] ∧
      (find_and_delete_task_from_instruction i tasks).isSuccess = true) ∧
    ((find_and_delete_calendar_event_from_instruction i events).deletes ≠ [] ↔
      ms.length = 1) ∧
    (ms = [] →
      (find_and_delete_calendar_event_from_instruction i events).isSuccess = true ∧
      (find_and_delete_calendar_event_from_instruction i events).deletes = [] ∧
      (find_and_delete_calendar_event_from_instruction i events).listed = events) ∧
    (2 ≤ ms.length →
      (find_and_delete_calendar_event_from_instruction i events).isSuccess = true ∧
      (find_and_delete_calendar_event_from_instruction i events).deletes = [] ∧
      (find_and_delete_calendar_event_from_instruction i events).listed = ms) ∧
    (∀ e, ms = [e] →
      (find_and_delete_calendar_event_from_instruction i events).deletes = [e.id] ∧
      (find_and_delete_calendar_event_from_instruction i events).isSuccess = true) := by
  obtain ⟨ht1, ht2, ht3, ht4⟩ := task_resolver_spec i tasks
  obtain ⟨he1, he2, he3, he4⟩ := event_resolver_spec i events ms hms
  refine ⟨?_, ?_, ?_, ?_, ?_, ?_, ?_, ?_⟩
  · constructor
    · intro hne
      rcases hm : tasks.filter (taskTitleMatches i) with - | ⟨t, ts⟩
      · exfalso
        rcases List.eq_nil_or_concat tasks with rfl | -
        · rw [ht1 rfl] at hne; exact hne rfl
        · rcases tasks with - | ⟨a, as⟩
          · rw [ht1 rfl] at hne; exact hne rfl
          · rw [ht2 (by simp) hm] at hne; exact hne rfl
      · rcases ts with - | ⟨t', ts'⟩
        · simp
        · exfalso
          rw [ht4 (by rw [hm]; simp)] at hne
          exact hne rfl
    · intro hlen
      obtain ⟨t, hm⟩ := List.length_eq_one.mp hlen
      rw [ht3 t hm]
      simp [FDTaskResult.deletes]
  · intro hm
    rcases tasks with - | ⟨a, as⟩
    · rw [ht1 rfl]; exact ⟨rfl, rfl, rfl⟩
    · rw [ht2 (by simp) hm]; exact ⟨rfl, rfl, rfl⟩
  · intro hlen
    rw [ht4 hlen]; exact ⟨rfl, rfl, rfl⟩
  · intro t hm
    rw [ht3 t hm]; exact ⟨rfl, rfl⟩
  · constructor
    · intro hne
      rcases hm : ms with - | ⟨e, es⟩
      · exfalso
        rcases events with - | ⟨a, as⟩
        · rw [he1 rfl] at hne; exact hne rfl
        · rw [he2 (by simp) hm] at hne; exact hne rfl
      · rcases es with - | ⟨e', es'⟩
        · simp
        · exfalso
          rw [he4 (by rw [hm]; simp)] at hne
          exact hne rfl
    · intro hlen
      obtain ⟨e, hm⟩ := List.length_eq_one.mp hlen
      rw [he3 e hm]
      simp [FDEventResult.deletes]
  · intro hm
    rcases events with - | ⟨a, as⟩
    · rw [he1 rfl]; exact ⟨rfl, rfl, rfl⟩
    · rw [he2 (by simp) hm]; exact ⟨rfl, rfl, rfl⟩
  · intro hlen
    rw [he4 hlen]; exact ⟨rfl, rfl, rfl⟩
  · intro e hm
    rw [he3 e hm]; exact ⟨rfl, rfl⟩

/-- Witness for the three-way disambiguation theorem: a single matching
task is deleted (exactly one provider delete call with its id). -/
theorem find_and_delete_three_way_witness :
    (find_and_delete_task_from_instruction
        ⟨some (lit "dentist"), none, none, none⟩
        [⟨lit "t1", some (lit "Dentist appointment"), none⟩]).deletes = [lit "t1"] ∧
    (find_and_delete_task_from_instruction
        ⟨some (lit "dentist"), none, none, none⟩
        [⟨lit "t1", some (lit "Dentist appointment"), none⟩]).isSuccess = true :=
  (find_and_delete_three_way ⟨some (lit "dentist"), none, none, none⟩
      [⟨lit "t1", some (lit "Dentist appointment"), none⟩] [] [] rfl).2.2.2.1
      ⟨lit "t1", some (lit "Dentist appointment"), none⟩ (by decide)

/-- C2: both resolvers match a candidate on title exactly when the
lowercased description is a substring of the lowercased candidate title or
vice versa; in particular "Dentist appointment" and "Dentist follow-up"
both match description "dentist", giving the multiple-matches outcome with
no deletion. -/
theorem title_match_bidirectional (i : FDInstr) (t : TaskCand) (e : EventCand) :
    (taskTitleMatches i t = true ↔
      (pyLower (i.title.getD [])) <:+: (pyLower (t.title.getD [])) ∨
      (pyLower (t.title.getD [])) <:+: (pyLower (i.title.getD []))) ∧
    (eventTitleMatches i e = true ↔
      (pyLower (i.title.getD [])) <:+: (pyLower (e.summary.getD [])) ∨
      (pyLower (e.summary.getD [])) <:+: (pyLower (i.title.getD []))) ∧
    find_and_delete_task_from_instruction ⟨some (lit "dentist"), none, none, none⟩
      [⟨lit "t1", some (lit "Dentist appointment"), none⟩,
       ⟨lit "t2", some (lit "Dentist follow-up"), none⟩] =
      .multipleMatches
        [⟨lit "t1", some (lit "Dentist appointment"), none⟩,
         ⟨lit "t2", some (lit "Dentist follow-up"), none⟩] ∧
    (find_and_delete_task_from_instruction ⟨some (lit "dentist"), none, none, none⟩
      [⟨lit "t1", some (lit "Dentist appointment"), none⟩,
       ⟨lit "t2", some (lit "Dentist follow-up"), none⟩]).deletes = [] := by
  refine ⟨?_, ?_, by decide, by decide⟩
  · simp only [taskTitleMatches, searchDescription, Bool.or_eq_true, strIn_iff]
  · simp only [eventTitleMatches, searchDescription, Bool.or_eq_true, strIn_iff]

/-- Stated from the claim's wording of the secondary temporal filter (spec
§4.4), applied to a task candidate whose start representation is its `due`
timestamp: with a date hint the date portion must equal the hint; with a
datetimeStart hint the instants must be within 3600 seconds; with a time
hint the hour:minute must match; with no hint every title match is kept.
This is a specification-side definition used only to compare the claim
against the code's task resolver, which has no temporal filter at all. -/
def temporalFilterSpecTask (i : FDInstr) (t : TaskCand) : Bool :=
  if truthy i.date then
    match t.due with
    | some d => decide (d.takeWhile (· != 'T') = i.date.getD [])
    | none => false
  else if truthy i.datetime_start then
    match t.due with
    | some d =>
        match pyFromIso (replaceZ d), pyFromIso (replaceZ (i.datetime_start.getD [])) with
        | some a, some b =>
            (match dtSub a b with
             | some diff => decide (diff.natAbs ≤ 3600)
             | none => false)
        | _, _ => false
    | none => false
  else if truthy i.time then
    match t.due with
    | some d =>
        match pyFromIso (replaceZ d) with
        | some a => decide (strftimeHM a = i.time.getD [])
        | none => false
    | none => false
  else true

/-- C3 counterexample: a task instruction carrying a date hint keeps (and
even deletes) a title-matching task whose due timestamp fails the claimed
temporal filter — the task resolver never consults the temporal hints. -/
theorem task_resolver_ignores_date_hint :
    find_and_delete_task_from_instruction
      ⟨some (lit "dentist"), some (lit "2025-01-01"), none, none⟩
      [⟨lit "t1", some (lit "dentist"), some (lit "2030-05-05T00:00:00.000Z")⟩] =
      .deletedTask (lit "t1") (lit "dentist") ∧
    temporalFilterSpecTask
      ⟨some (lit "dentist"), some (lit "2025-01-01"), none, none⟩
      ⟨lit "t1", some (lit "dentist"), some (lit "2030-05-05T00:00:00.000Z")⟩ = false := by
  constructor <;> decide

/-- C3 amended: the secondary temporal filter exists only in the calendar
event resolver — the task resolver keeps every title match and ignores
date/datetimeStart/time hints entirely.  For events, every kept candidate
passed the title test and the filter, whose semantics are: a date hint
compares the all-day date, else the date portion of the start timestamp,
exactly; a datetimeStart hint (no date) accepts a timed start within 3600
seconds; a time hint alone compares hour:minute; and in each hinted case a
candidate lacking the consulted start representation passes by default, as
does every candidate when no hint is present. -/
theorem temporal_filter_characterization (i i' : FDInstr) (tasks : List TaskCand)
    (events ms : List EventCand) (e : EventCand)
    (hms : collectEventMatches i events = some ms) :
    (i.title = i'.title →
      find_and_delete_task_from_instruction i tasks =
        find_and_delete_task_from_instruction i' tasks) ∧
    (∀ e' ∈ ms, e' ∈ events ∧ eventTitleMatches i e' = true ∧
      eventDateMatches i e' = some true) ∧
    (truthy i.date = true → truthy e.startDate = true →
      (eventDateMatches i e = some true ↔ e.startDate.getD [] = i.date.getD [])) ∧
    (truthy i.date = true → truthy e.startDate = false → truthy e.startDateTime = true →
      (eventDateMatches i e = some true ↔
        (e.startDateTime.getD []).takeWhile (· != 'T') = i.date.getD [])) ∧
    (truthy i.date = true → truthy e.startDate = false → truthy e.startDateTime = false →
      eventDateMatches i e = some true) ∧
    (truthy i.date = false → truthy i.datetime_start = true → truthy e.startDateTime = true →
      ∀ a b diff, pyFromIso (replaceZ (e.startDateTime.getD [])) = some a →
        pyFromIso (replaceZ (i.datetime_start.getD [])) = some b →
        dtSub a b = some diff →
        (eventDateMatches i e = some true ↔ diff.natAbs ≤ 3600)) ∧
    (truthy i.date = false → truthy i.datetime_start = true →
      truthy e.startDateTime = false → eventDateMatches i e = some true) ∧
    (truthy i.date = false → truthy i.datetime_start = false → truthy i.time = true →
      truthy e.startDateTime = true →
      ∀ a, pyFromIso (replaceZ (e.startDateTime.getD [])) = some a →
        (eventDateMatches i e = some true ↔ strftimeHM a = i.time.getD [])) ∧
    (truthy i.date = false → truthy i.datetime_start = false → truthy i.time = true →
      truthy e.startDateTime = false → eventDateMatches i e = some true) ∧
    (truthy i.date = false → truthy i.datetime_start = false → truthy i.time = false →
      eventDateMatches i e = some true) := by
  refine ⟨?_, mem_collectEventMatches i events ms hms, ?_, ?_, ?_, ?_, ?_, ?_, ?_, ?_⟩
  · intro htitle
    have hpred : taskTitleMatches i = taskTitleMatches i' := by
      funext t
      simp [taskTitleMatches, searchDescription, htitle]
    simp [find_and_delete_task_from_instruction, hpred]
  · intro h1 h2
    simp [eventDateMatches, h1, h2]
  · intro h1 h2 h3
    simp [eventDateMatches, h1, h2, h3]
  · intro h1 h2 h3
    simp [eventDateMatches, h1, h2, h3]
  · intro h1 h2 h3 a b diff ha hb hd
    simp [eventDateMatches, h1, h2, h3, ha, hb, hd]
  · intro h1 h2 h3
    simp [eventDateMatches, h1, h2, h3]
  · intro h1 h2 h3 h4 a ha
    simp [eventDateMatches, h1, h2, h3, h4, ha]
  · intro h1 h2 h3 h4
    simp [eventDateMatches, h1, h2, h3, h4]
  · intro h1 h2 h3
    simp [eventDateMatches, h1, h2, h3]

/-- Witness for the temporal-filter characterization at concrete inputs:
the task resolver's result is unchanged when a date hint is added, and a
timed event 1800 seconds away from the datetimeStart hint passes the
filter. -/
theorem temporal_filter_characterization_witness :
    find_and_delete_task_from_instruction
        ⟨some (lit "gym"), some (lit "2025-01-01"), none, none⟩
        [⟨lit "t9", some (lit "Gym"), none⟩] =
      find_and_delete_task_from_instruction
        ⟨some (lit "gym"), none, none, none⟩
        [⟨lit "t9", some (lit "Gym"), none⟩] ∧
    (eventDateMatches
        ⟨some (lit "standup"), none, some (lit "2025-06-27T09:30:00Z"), none⟩
        ⟨lit "e1", some (lit "Standup"), none, some (lit "2025-06-27T10:00:00Z")⟩ =
        some true ↔ ((1800 : Int).natAbs ≤ 3600)) := by
  constructor
  · exact (temporal_filter_characterization
      ⟨some (lit "gym"), some (lit "2025-01-01"), none, none⟩
      ⟨some (lit "gym"), none, none, none⟩
      [⟨lit "t9", some (lit "Gym"), none⟩] [] [] ⟨lit "e", none, none, none⟩ rfl).1 rfl
  · exact (temporal_filter_characterization
      ⟨some (lit "standup"), none, some (lit "2025-06-27T09:30:00Z"), none⟩
      ⟨some (lit "standup"), none, some (lit "2025-06-27T09:30:00Z"), none⟩
      [] [] [] ⟨lit "e1", some (lit "Standup"), none, some (lit "2025-06-27T10:00:00Z")⟩
      rfl).2.2.2.2.2.1 (by decide) (by decide) (by decide)
      ⟨2025, 6, 27, 10, 0, 0, some 0⟩ ⟨2025, 6, 27, 9, 30, 0, some 0⟩ 1800
      (by decide) (by decide) (by decide)

/-- C10 counterexample: with an absent title the sole browsed event is NOT
deleted when the instruction carries a date hint the event fails — the
"sole candidate is always deleted" part of the claim does not hold for
events with temporal hints. -/
theorem empty_title_sole_event_not_deleted :
    find_and_delete_calendar_event_from_instruction
      ⟨none, some (lit "2025-01-02"), none, none⟩
      [⟨lit "e1", some (lit "X"), some (lit "2025-01-03"), none⟩] =
      .noMatches [⟨lit "e1", some (lit "X"), some (lit "2025-01-03"), none⟩] ∧
    (find_and_delete_calendar_event_from_instruction
      ⟨none, some (lit "2025-01-02"), none, none⟩
      [⟨lit "e1", some (lit "X"), some (lit "2025-01-03"), none⟩]).deletes = [] := by
  constructor <;> decide

/-- C10 amended: an absent or empty title makes the search description the
empty string, which is a substring of every candidate title, so every
browsed candidate matches the title test in both resolvers.  A sole task
candidate is therefore always deleted; a sole event candidate is deleted
provided it also passes the temporal filter — in particular always when
the instruction carries no temporal hint. -/
theorem empty_title_matches_everything (i : FDInstr) (t tc : TaskCand) (e : EventCand) :
    ((i.title = none ∨ i.title = some []) → searchDescription i = []) ∧
    (searchDescription i = [] →
      taskTitleMatches i t = true ∧ eventTitleMatches i e = true) ∧
    ((i.title = none ∨ i.title = some []) →
      find_and_delete_task_from_instruction i [tc] =
        .deletedTask tc.id (tc.title.getD (lit "Untitled Task"))) ∧
    ((i.title = none ∨ i.title = some []) →
      truthy i.date = false → truthy i.datetime_start = false → truthy i.time = false →
      find_and_delete_calendar_event_from_instruction i [e] =
        .deletedEvent e.id (e.summary.getD (lit "Untitled Event"))) := by
  have hsd : (i.title = none ∨ i.title = some []) → searchDescription i = [] := by
    rintro (h | h) <;> simp [searchDescription, h, pyLower]
  have hmatch : searchDescription i = [] →
      taskTitleMatches i t = true ∧ eventTitleMatches i e = true := by
    intro h
    constructor
    · simp [taskTitleMatches, h, strIn_nil]
    · simp [eventTitleMatches, h, strIn_nil]
  refine ⟨hsd, hmatch, ?_, ?_⟩
  · intro h
    have htm : taskTitleMatches i tc = true := by
      simp [taskTitleMatches, hsd h, strIn_nil]
    have hfil : [tc].filter (taskTitleMatches i) = [tc] := by
      simp [List.filter, htm]
    exact (task_resolver_spec i [tc]).2.2.1 tc hfil
  · intro h hd hdts htime
    have hem : eventTitleMatches i e = true := by
      simp [eventTitleMatches, hsd h, strIn_nil]
    have hdm : eventDateMatches i e = some true := by
      simp [eventDateMatches, hd, hdts, htime]
    have hcol : collectEventMatches i [e] = some [e] := by
      simp [collectEventMatches, hem, hdm]
    exact (event_resolver_spec i [e] [e] hcol).2.2.1 e rfl

/-- Witness for the empty-title theorem: a title-less instruction deletes
the sole task and the sole event. -/
theorem empty_title_matches_everything_witness :
    find_and_delete_task_from_instruction ⟨none, none, none, none⟩
        [⟨lit "t1", some (lit "Whatever"), none⟩] =
      .deletedTask (lit "t1") (lit "Whatever") ∧
    find_and_delete_calendar_event_from_instruction ⟨none, none, none, none⟩
        [⟨lit "e1", some (lit "Thing"), none, some (lit "2025-01-01T10:00:00Z")⟩] =
      .deletedEvent (lit "e1") (lit "Thing") := by
  constructor
  · exact (empty_title_matches_everything ⟨none, none, none, none⟩
      ⟨lit "t1", some (lit "Whatever"), none⟩ ⟨lit "t1", some (lit "Whatever"), none⟩
      ⟨lit "e1", some (lit "Thing"), none, some (lit "2025-01-01T10:00:00Z")⟩).2.2.1
      (Or.inl rfl)
  · exact (empty_title_matches_everything ⟨none, none, none, none⟩
      ⟨lit "t1", some (lit "Whatever"), none⟩ ⟨lit "t1", some (lit "Whatever"), none⟩
      ⟨lit "e1", some (lit "Thing"), none, some (lit "2025-01-01T10:00:00Z")⟩).2.2.2
      (Or.inl rfl) rfl rfl rfl

/-! ## Repair pass (`clean_json_string`, app.py lines 890-909)

The function applies two `re.sub` calls removing commas before closing
braces/brackets, two quote-`replace` calls, and `strip()`.  In the source
as it stands, the quote lines are
`json_str.replace('"', '"').replace('"', '"')` — both arguments are the
plain ASCII double quote, so both calls are identity — and the next line
tokenizes as a single `replace` whose pattern is the literal text
between two triple-quote delimiters (the characters
`, "'").replace(`) and whose replacement is a single apostrophe.  No
curly "smart" quotation mark is ever normalized. -/

/-- Python's `\s` whitespace class restricted to ASCII. -/
def pySpace (c : Char) : Bool :=
  c = ' ' || c = '\t' || c = '\n' || c = '\r' || c = '\x0b' || c = '\x0c'

theorem length_dropWhile_le {α : Type} (p : α → Bool) (l : List α) :
    (l.dropWhile p).length ≤ l.length := by
  induction l with
  | nil => simp [List.dropWhile]
  | cons c r ih =>
      by_cases h : p c
      · simp only [List.dropWhile, h, List.length_cons]; omega
      · simp only [List.dropWhile, h]; simp

/-- Fuel-bounded loop of the trailing-comma substitution; the fuel always
dominates the string length, so the zero case is never reached. -/
def pySubTrailingGo (closers : List Char) : Nat → Str → Str
  | 0, s => s
  | _ + 1, [] => []
  | fuel + 1, c :: rest =>
      if c = ',' then
        match rest.dropWhile pySpace with
        | b :: rest2 =>
            if b ∈ closers then
              rest.takeWhile pySpace ++ b :: pySubTrailingGo closers fuel rest2
            else c :: pySubTrailingGo closers fuel rest
        | [] => c :: pySubTrailingGo closers fuel rest
      else c :: pySubTrailingGo closers fuel rest

/-- Model of `re.sub(r',(\s*C)', r'\1', s)` for a class `C` of closing
characters: every comma followed by optional whitespace and a closer is
replaced by the captured whitespace-and-closer, scanning left to right
without rescanning replacements. -/
def pySubTrailing (closers : List Char) (s : Str) : Str :=
  pySubTrailingGo closers s.length s

/-- Fuel-bounded loop of Python `str.replace` for a nonempty pattern. -/
def replaceGo (p : Char) (ps rep : Str) : Nat → Str → Str
  | 0, s => s
  | _ + 1, [] => []
  | fuel + 1, c :: rest =>
      if strStartsWith (p :: ps) (c :: rest) then
        rep ++ replaceGo p ps rep fuel (rest.drop ps.length)
      else c :: replaceGo p ps rep fuel rest

/-- Model of Python `s.replace(pat, rep)` (empty pattern unused here). -/
def pyReplace (s pat rep : Str) : Str :=
  match pat with
  | [] => s
  | p :: ps => replaceGo p ps rep s.length s

/-- Model of Python `s.strip()` on ASCII whitespace. -/
def pyStrip (s : Str) : Str :=
  ((s.dropWhile pySpace).reverse.dropWhile pySpace).reverse

/-- Translation of `clean_json_string` (app.py lines 890-909): the two
trailing-comma substitutions, the two identity quote replacements, the
accidental triple-quote replacement of line 904, and the final strip. -/
def clean_json_string (s : Str) : Str :=
  let s1 := pySubTrailing ['\x7d', ']'] s
  let s2 := pySubTrailing ['\x7d'] s1
  let s3 := pyReplace (pyReplace s2 ['"'] ['"']) ['"'] ['"']
  let s4 := pyReplace s3 (lit ", \"'\").replace(") ['\'']
  pyStrip s4

/-! ## Structural JSON parse (`json.loads` fragment)

The model supports the JSON fragment instruction objects use: objects,
arrays, double-quoted strings without escape sequences, integers, and the
three literals.  Parsing is fuel-bounded recursive descent; `json.loads`
requires the whole input to be consumed. -/

/-- JSON values. -/
inductive Json where
  | jnull
  | jbool (b : Bool)
  | jnum (n : Int)
  | jstr (s : Str)
  | jarr (xs : List Json)
  | jobj (fs : List (Str × Json))

/-- JSON structural whitespace. -/
def jsonWs (c : Char) : Bool := c = ' ' || c = '\t' || c = '\n' || c = '\r'

/-- Skip structural whitespace. -/
def skipWs (s : Str) : Str := s.dropWhile jsonWs

/-- Scan a string body up to the closing quote (no escape support). -/
def parseStringRest : Str → Option (Str × Str)
  | [] => none
  | c :: rest =>
      if c = '"' then some ([], rest)
      else match parseStringRest rest with
        | some (str, r) => some (c :: str, r)
        | none => none

/-- Accumulate decimal digits into a number. -/
def digitsToNat (ds : Str) : Nat := ds.foldl (fun a c => a * 10 + digitVal c) 0

mutual

/-- Parse one JSON value. -/
def parseVal : Nat → Str → Option (Json × Str)
  | 0, _ => none
  | fuel + 1, s =>
    match skipWs s with
    | [] => none
    | c :: rest =>
      if c = '\x7b' then parseObjBody fuel rest
      else if c = '[' then parseArrBody fuel rest
      else if c = '"' then
        match parseStringRest rest with
        | some (str, r) => some (.jstr str, r)
        | none => none
      else if c = 'n' then
        (if strStartsWith (lit "ull") rest then some (.jnull, rest.drop 3) else none)
      else if c = 't' then
        (if strStartsWith (lit "rue") rest then some (.jbool true, rest.drop 3) else none)
      else if c = 'f' then
        (if strStartsWith (lit "alse") rest then some (.jbool false, rest.drop 4) else none)
      else if c = '-' then
        (match rest.takeWhile Char.isDigit with
         | [] => none
         | ds => some (.jnum (-(digitsToNat ds : Int)), rest.dropWhile Char.isDigit))
      else if c.isDigit then
        some (.jnum (digitsToNat (c :: rest.takeWhile Char.isDigit)),
          rest.dropWhile Char.isDigit)
      else none

/-- Parse an object body after the opening brace. -/
def parseObjBody : Nat → Str → Option (Json × Str)
  | 0, _ => none
  | fuel + 1, s =>
    match skipWs s with
    | '\x7d' :: r => some (.jobj [], r)
    | r => parseMembers fuel r []

/-- Parse object members. -/
def parseMembers : Nat → Str → List (Str × Json) → Option (Json × Str)
  | 0, _, _ => none
  | fuel + 1, s, acc =>
    match skipWs s with
    | '"' :: rest =>
      (match parseStringRest rest with
       | none => none
       | some (key, r1) =>
         match skipWs r1 with
         | ':' :: r2 =>
           (match parseVal fuel r2 with
            | none => none
            | some (v, r3) =>
              match skipWs r3 with
              | ',' :: r4 => parseMembers fuel r4 (acc ++ [(key, v)])
              | '\x7d' :: r4 => some (.jobj (acc ++ [(key, v)]), r4)
              | _ => none)
         | _ => none)
    | _ => none

/-- Parse an array body after the opening bracket. -/
def parseArrBody : Nat → Str → Option (Json × Str)
  | 0, _ => none
  | fuel + 1, s =>
    match skipWs s with
    | ']' :: r => some (.jarr [], r)
    | r => parseElems fuel r []

/-- Parse array elements. -/
def parseElems : Nat → Str → List Json → Option (Json × Str)
  | 0, _, _ => none
  | fuel + 1, s, acc =>
    match parseVal fuel s with
    | none => none
    | some (v, r1) =>
      match skipWs r1 with
      | ',' :: r2 => parseElems fuel r2 (acc ++ [v])
      | ']' :: r2 => some (.jarr (acc ++ [v]), r2)
      | _ => none

end

/-- Model of `json.loads`: parse one value and require only whitespace to
remain. -/
def pyloads (s : Str) : Option Json :=
  match parseVal (4 * (s.length + 1)) s with
  | some (j, rest) => if (skipWs rest).isEmpty then some j else none
  | none => none

/-- C7: the repair pass handles trailing commas and surrounding whitespace,
but the quote-normalization step of `clean_json_string` is inert — the
`replace` calls on line 903 have the plain ASCII quote as both arguments —
so an instruction object written with curly smart quotes is returned
unchanged and fails structural parsing, while the same object in strict
syntax parses; the trailing-comma case, by contrast, parses identically to
the strict rendering. -/
theorem clean_json_smart_quotes_not_normalized :
    clean_json_string (lit "\x7b“action”: “greeting”\x7d") =
      lit "\x7b“action”: “greeting”\x7d" ∧
    pyloads (clean_json_string (lit "\x7b“action”: “greeting”\x7d")) = none ∧
    pyloads (lit "\x7b\"action\": \"greeting\"\x7d") =
      some (.jobj [(lit "action", .jstr (lit "greeting"))]) ∧
    pyloads (clean_json_string (lit "  \x7b\"action\": \"greeting\",\x7d ")) =
      some (.jobj [(lit "action", .jstr (lit "greeting"))]) :=
  ⟨rfl, rfl, rfl, rfl⟩

/-! ## Brace-balanced recovery (app.py lines 931-962)

When the strict parse of the cleaned instruction string fails, the code
scans from the first `'{'` counting brace depth and feeds the first span
whose depth returns to zero back to `json.loads`; each failure mode
returns an error dict. -/

/-- Split a string at its first opening brace: `s.find('{')`. -/
def splitAtFirstBrace : Str → Option (Str × Str)
  | [] => none
  | c :: rest =>
      if c = '\x7b' then some ([], c :: rest)
      else
        match splitAtFirstBrace rest with
        | none => none
        | some (pre, suf) => some (c :: pre, suf)

/-- The depth-counting loop (app.py lines 943-956): starting from the
first brace, `'{'` increments and `'}'` decrements the count, and the span
ending where the count reaches zero is returned. -/
def scanBalanced : Str → Int → Str → Option Str
  | [], _, _ => none
  | c :: rest, depth, acc =>
      if c = '\x7b' then scanBalanced rest (depth + 1) (c :: acc)
      else if c = '\x7d' then
        (if depth - 1 = 0 then some ((c :: acc).reverse)
         else scanBalanced rest (depth - 1) (c :: acc))
      else scanBalanced rest depth (c :: acc)

/-- Outcome of extracting an instruction object from the cleaned string:
a parse, or one of the three error envelopes the code returns. -/
inductive ExtractResult where
  | parsed (j : Json)
  | errParse
  | errIncomplete
  | errNoObject

/-- Translation of the recovery block (app.py lines 940-962). -/
def braceRecovery (s : Str) : ExtractResult :=
  match splitAtFirstBrace s with
  | none => .errNoObject
  | some (_, suf) =>
      match scanBalanced suf 0 [] with
      | none => .errIncomplete
      | some span =>
          match pyloads span with
          | some j => .parsed j
          | none => .errParse

/-- Translation of the strict-then-recover parse of the instruction string
(app.py lines 931-962). -/
def parseInstructionStr (s : Str) : ExtractResult :=
  match pyloads s with
  | some j => .parsed j
  | none => braceRecovery s

/-- Signed brace depth of a string. -/
def braceDepth : Str → Int
  | [] => 0
  | c :: rest =>
      (if c = '\x7b' then 1 else if c = '\x7d' then -1 else 0) + braceDepth rest

/-- A span starting at the first brace whose depth first returns to zero at
its own end: nonempty, starts with `'{'`, ends with `'}'`, total depth
zero, and every proper nonempty prefix has positive depth. -/
def isFirstBalancedSpan (span : Str) : Prop :=
  span ≠ [] ∧ span.head? = some '\x7b' ∧ span.getLast? = some '\x7d' ∧
  braceDepth span = 0 ∧
  ∀ k < span.length, 0 < k → 0 < braceDepth (span.take k)

theorem splitAtFirstBrace_of_noBrace (s : Str) (h : ∀ c ∈ s, c ≠ '\x7b') :
    splitAtFirstBrace s = none := by
  induction s with
  | nil => rfl
  | cons c rest ih =>
      have hc : c ≠ '\x7b' := h c (List.mem_cons_self _ _)
      have hrest := ih (fun x hx => h x (List.mem_cons_of_mem _ hx))
      simp [splitAtFirstBrace, hc, hrest]

theorem splitAtFirstBrace_append (pre t : Str) (h : ∀ c ∈ pre, c ≠ '\x7b') :
    splitAtFirstBrace (pre ++ '\x7b' :: t) = some (pre, '\x7b' :: t) := by
  induction pre with
  | nil => simp [splitAtFirstBrace]
  | cons c pre' ih =>
      have hc : c ≠ '\x7b' := h c (List.mem_cons_self _ _)
      have hpre := ih (fun x hx => h x (List.mem_cons_of_mem _ hx))
      simp [splitAtFirstBrace, hc, hpre]

theorem braceDepth_cons (c : Char) (l : Str) :
    braceDepth (c :: l) =
      (if c = '\x7b' then 1 else if c = '\x7d' then -1 else 0) + braceDepth l := rfl

theorem scanBalanced_cons (c : Char) (rest : Str) (d : Int) (acc : Str) :
    scanBalanced (c :: rest) d acc =
      if c = '\x7b' then scanBalanced rest (d + 1) (c :: acc)
      else if c = '\x7d' then
        (if d - 1 = 0 then some ((c :: acc).reverse)
         else scanBalanced rest (d - 1) (c :: acc))
      else scanBalanced rest d (c :: acc) := rfl

theorem braceDepth_cons_open (l : Str) : braceDepth ('\x7b' :: l) = 1 + braceDepth l := by
  simp [braceDepth]

theorem braceDepth_cons_close (l : Str) : braceDepth ('\x7d' :: l) = -1 + braceDepth l := by
  simp [braceDepth]

theorem braceDepth_cons_other (c : Char) (l : Str) (h1 : c ≠ '\x7b') (h2 : c ≠ '\x7d') :
    braceDepth (c :: l) = braceDepth l := by
  simp [braceDepth, h1, h2]

theorem scanBalanced_some (span : Str) :
    ∀ (rest acc : Str) (d : Int), span ≠ [] → span.getLast? = some '\x7d' →
      d + braceDepth span = 0 → 0 ≤ d →
      (∀ k, 0 < k → k < span.length → 0 < d + braceDepth (span.take k)) →
      scanBalanced (span ++ rest) d acc = some (acc.reverse ++ span) := by
  induction span with
  | nil => intro _ _ _ hne; exact absurd rfl hne
  | cons c span' ih =>
      intro rest acc d _ hlast h0 hd hpos
      by_cases hc1 : c = '\x7b'
      · subst hc1
        rw [braceDepth_cons_open] at h0
        cases span' with
        | nil =>
            exfalso
            simp [braceDepth] at h0
            omega
        | cons c2 sp2 =>
            rw [List.cons_append, scanBalanced_cons, if_pos rfl]
            have harg : ∀ k, 0 < k → k < (c2 :: sp2).length →
                0 < (d + 1) + braceDepth ((c2 :: sp2).take k) := by
              intro k hk hklen
              have := hpos (k + 1) (by omega) (by simp only [List.length_cons] at hklen ⊢; omega)
              rw [List.take_succ_cons, braceDepth_cons_open] at this
              omega
            rw [ih rest ('\x7b' :: acc) (d + 1) (by simp)
              (by rw [← List.getLast?_cons_cons]; exact hlast)
              (by omega) (by omega) harg]
            simp
      · by_cases hc2 : c = '\x7d'
        · subst hc2
          rw [braceDepth_cons_close] at h0
          cases span' with
          | nil =>
              have hd1 : d - 1 = 0 := by
                simp [braceDepth] at h0
                omega
              rw [List.cons_append, scanBalanced_cons,
                if_neg (by decide : ¬('\x7d' = '\x7b')), if_pos rfl, if_pos hd1]
              simp
          | cons c2 sp2 =>
              have hpos1 := hpos 1 (by omega) (by simp only [List.length_cons]; omega)
              rw [show (('\x7d' :: c2 :: sp2).take 1) = ['\x7d'] from rfl] at hpos1
              have hdep1 : braceDepth ['\x7d'] = -1 := by simp [braceDepth]
              rw [hdep1] at hpos1
              have hne0 : ¬(d - 1 = 0) := by omega
              rw [List.cons_append, scanBalanced_cons,
                if_neg (by decide : ¬('\x7d' = '\x7b')), if_pos rfl, if_neg hne0]
              have harg : ∀ k, 0 < k → k < (c2 :: sp2).length →
                  0 < (d - 1) + braceDepth ((c2 :: sp2).take k) := by
                intro k hk hklen
                have := hpos (k + 1) (by omega) (by simp only [List.length_cons] at hklen ⊢; omega)
                rw [List.take_succ_cons, braceDepth_cons_close] at this
                omega
              rw [ih rest ('\x7d' :: acc) (d - 1) (by simp)
                (by rw [← List.getLast?_cons_cons]; exact hlast)
                (by omega) (by omega) harg]
              simp
        · cases span' with
          | nil =>
              exfalso
              simp at hlast
              exact hc2 hlast
          | cons c2 sp2 =>
              rw [braceDepth_cons_other c _ hc1 hc2] at h0
              rw [List.cons_append, scanBalanced_cons, if_neg hc1, if_neg hc2]
              have harg : ∀ k, 0 < k → k < (c2 :: sp2).length →
                  0 < d + braceDepth ((c2 :: sp2).take k) := by
                intro k hk hklen
                have := hpos (k + 1) (by omega) (by simp only [List.length_cons] at hklen ⊢; omega)
                rw [List.take_succ_cons, braceDepth_cons_other c _ hc1 hc2] at this
                omega
              rw [ih rest (c :: acc) d (by simp)
                (by rw [← List.getLast?_cons_cons]; exact hlast)
                (by omega) hd harg]
              simp

theorem scanBalanced_none (s : Str) :
    ∀ (acc : Str) (d : Int),
      (∀ k, 0 < k → k ≤ s.length → d + braceDepth (s.take k) ≠ 0) →
      scanBalanced s d acc = none := by
  induction s with
  | nil => intro _ _ _; rfl
  | cons c s' ih =>
      intro acc d h
      by_cases hc1 : c = '\x7b'
      · subst hc1
        rw [scanBalanced_cons, if_pos rfl]
        refine ih _ _ ?_
        intro k hk hklen
        have := h (k + 1) (by omega) (by simp only [List.length_cons] at hklen ⊢; omega)
        rw [List.take_succ_cons, braceDepth_cons_open] at this
        omega
      · by_cases hc2 : c = '\x7d'
        · subst hc2
          have h1 := h 1 (by omega) (by simp only [List.length_cons]; omega)
          rw [show (('\x7d' :: s').take 1) = ['\x7d'] from rfl] at h1
          have hdep1 : braceDepth ['\x7d'] = -1 := by simp [braceDepth]
          rw [hdep1] at h1
          have hne0 : ¬(d - 1 = 0) := by omega
          rw [scanBalanced_cons, if_neg (by decide : ¬('\x7d' = '\x7b')), if_pos rfl,
            if_neg hne0]
          refine ih _ _ ?_
          intro k hk hklen
          have := h (k + 1) (by omega) (by simp only [List.length_cons] at hklen ⊢; omega)
          rw [List.take_succ_cons, braceDepth_cons_close] at this
          omega
        · rw [scanBalanced_cons, if_neg hc1, if_neg hc2]
          refine ih _ _ ?_
          intro k hk hklen
          have := h (k + 1) (by omega) (by simp only [List.length_cons] at hklen ⊢; omega)
          rw [List.take_succ_cons, braceDepth_cons_other c _ hc1 hc2] at this
          omega

/-- C8: when the strict parse fails, the extractor scans from the first
`'{'` tracking brace depth and parses exactly the first span where the
depth returns to zero, discarding everything after it (never merging
fragments); if no opening brace exists, or the depth never returns to
zero, or the recovered span fails to parse, it returns the corresponding
error envelope instead of raising. -/
theorem brace_recovery_first_span (s pre span rest : Str) :
    (∀ j, pyloads s = some j → parseInstructionStr s = .parsed j) ∧
    (pyloads s = none → parseInstructionStr s = braceRecovery s) ∧
    ((∀ c ∈ s, c ≠ '\x7b') → braceRecovery s = .errNoObject) ∧
    ((∀ c ∈ pre, c ≠ '\x7b') → isFirstBalancedSpan span →
      braceRecovery (pre ++ span ++ rest) =
        (match pyloads span with
         | some j => ExtractResult.parsed j
         | none => ExtractResult.errParse)) ∧
    ((∀ c ∈ pre, c ≠ '\x7b') → span.head? = some '\x7b' →
      (∀ k, 0 < k → k ≤ span.length → braceDepth (span.take k) ≠ 0) →
      braceRecovery (pre ++ span) = .errIncomplete) := by
  refine ⟨?_, ?_, ?_, ?_, ?_⟩
  · intro j hj
    unfold parseInstructionStr
    rw [hj]
  · intro h
    unfold parseInstructionStr
    rw [h]
  · intro h
    unfold braceRecovery
    rw [splitAtFirstBrace_of_noBrace s h]
  · intro hpre hspan
    obtain ⟨hne, hhead, hlast, h0, hpos⟩ := hspan
    obtain ⟨t, rfl⟩ : ∃ t, span = '\x7b' :: t := by
      cases span with
      | nil => cases hhead
      | cons a t =>
          simp only [List.head?_cons, Option.some.injEq] at hhead
          exact ⟨t, by rw [hhead]⟩
    have hassoc : pre ++ ('\x7b' :: t) ++ rest = pre ++ '\x7b' :: (t ++ rest) := by simp
    have hscan := scanBalanced_some ('\x7b' :: t) rest [] 0 hne hlast
      (by omega) (by omega)
      (by intro k hk hklen
          have := hpos k hklen hk
          omega)
    have hscan' : scanBalanced ('\x7b' :: (t ++ rest)) 0 [] = some ('\x7b' :: t) := by
      rw [← List.cons_append]
      simpa using hscan
    rw [hassoc]
    unfold braceRecovery
    rw [splitAtFirstBrace_append pre (t ++ rest) hpre]
    show (match scanBalanced ('\x7b' :: (t ++ rest)) 0 [] with
          | none => ExtractResult.errIncomplete
          | some sp =>
            match pyloads sp with
            | some j => ExtractResult.parsed j
            | none => ExtractResult.errParse) = _
    rw [hscan']
  · intro hpre hhead hdep
    obtain ⟨t, rfl⟩ : ∃ t, span = '\x7b' :: t := by
      cases span with
      | nil => cases hhead
      | cons a t =>
          simp only [List.head?_cons, Option.some.injEq] at hhead
          exact ⟨t, by rw [hhead]⟩
    unfold braceRecovery
    rw [splitAtFirstBrace_append pre t hpre]
    show (match scanBalanced ('\x7b' :: t) 0 [] with
          | none => ExtractResult.errIncomplete
          | some sp =>
            match pyloads sp with
            | some j => ExtractResult.parsed j
            | none => ExtractResult.errParse) = _
    rw [scanBalanced_none ('\x7b' :: t) [] 0
      (by intro k hk hklen
          have := hdep k hk hklen
          omega)]

/-- Witness for the brace-recovery theorem: with junk before the first
brace and after the first balanced span, exactly that span is parsed. -/
theorem brace_recovery_first_span_witness :
    braceRecovery (lit "ab" ++ lit "\x7b\"a\": 1\x7d" ++ lit "\x7dx") =
      .parsed (.jobj [(lit "a", .jnum 1)]) := by
  have h := (brace_recovery_first_span (lit "") (lit "ab")
    (lit "\x7b\"a\": 1\x7d") (lit "\x7dx")).2.2.2.1 (by decide)
    (by constructor
        · decide
        · exact ⟨by decide, by decide, by decide, by decide⟩)
  rw [h]
  rfl
